import Mathlib

/-!
# Verification of the frequenz-sdk resampler core and Matryoshka status reports

A shallow embedding of `src/frequenz/sdk/timeseries/_resampling.py` (the
timeseries resampler: configuration validation, per-source sample tracking,
adaptive buffer sizing, window-end scheduling, the resampling step and the
per-pass error aggregation) together with a spec-modelled fragment of the
Matryoshka power-arbitration status report.

Time is modelled in rational seconds: `datetime` values and `timedelta`
values both become `ℚ` (seconds since the epoch, resp. a span in seconds).
Python floats carrying quantities are modelled by `Val` (a rational number
or the NaN marker), so that NaN filtering and NaN propagation are explicit.
-/

namespace Resampling

/-- A quantity value as carried by a `Sample`: either NaN or a rational
`base_value`.  This mirrors `frequenz.quantities.Quantity` to the extent the
resampler uses it (`base_value` and `isnan()`). -/
inductive Val where
  | nan : Val
  | num (q : ℚ) : Val
deriving DecidableEq, Repr

/-- The `Sample` type from `_base_types`: a timezone-aware timestamp and an optional
quantity value (`None` is modelled as `Option.none`). -/
structure RSample where
  timestamp : ℚ
  value : Option Val
deriving DecidableEq, Repr

instance : Inhabited RSample := ⟨⟨0, none⟩⟩

/-- A `datetime` as used for `ResamplerConfig.align_to`: the instant in
seconds plus whether the datetime carries timezone information
(`tzinfo is not None`). -/
structure PyDatetime where
  t : ℚ
  tzaware : Bool
deriving DecidableEq, Repr

/-- The `ResamplerConfig` record (the data fields; the `resampling_function` member is
passed separately to the operations that use it, to keep the configuration
a plain first-order record). -/
structure ResamplerConfig where
  resampling_period : ℚ
  max_data_age_in_periods : ℚ
  initial_buffer_len : Nat
  warn_buffer_len : Nat
  max_buffer_len : Nat
  align_to : Option PyDatetime
deriving DecidableEq, Repr

/-- Embedding of `ResamplerConfig.__post_init__`: returns `true` when construction
succeeds and `false` when a `ValueError` is raised.  Each conjunct is the
negation of one `raise` condition, in source order (the
`initial_buffer_len > warn_buffer_len` case only logs a warning and is
therefore not part of acceptance). -/
def post_init_ok (c : ResamplerConfig) : Bool :=
  !(c.resampling_period < 0)
  && !(c.max_data_age_in_periods < 1)
  && !(c.warn_buffer_len < 1)
  && !(c.max_buffer_len ≤ c.warn_buffer_len)
  && !(c.initial_buffer_len < 1)
  && !(c.initial_buffer_len > c.max_buffer_len)
  && (match c.align_to with
      | none => true
      | some a => a.tzaware)

/-- The Python `%` operator on a difference of datetimes by a positive period
(`timedelta.__mod__`): `x - p * ⌊x / p⌋`. -/
def qmod (x p : ℚ) : ℚ := x - p * ⌊x / p⌋

/-- Embedding of `Resampler._calculate_window_end`: given the construction time `now`,
returns the end of the first resampling window and the timer start delay. -/
def calculate_window_end (c : ResamplerConfig) (now : ℚ) : ℚ × ℚ :=
  let period := c.resampling_period
  match c.align_to with
  | none => (now + period, 0)
  | some align_to =>
    let elapsed := qmod (now - align_to.t) period
    if elapsed = 0 then
      (now + period, 0)
    else
      (now + period * 2 - elapsed, period - elapsed)

/-- The `SourceProperties` record: per-source statistics kept by a resampling helper. -/
structure SourceProperties where
  sampling_start : Option ℚ := none
  received_samples : Nat := 0
  sampling_period : Option ℚ := none
deriving DecidableEq, Repr

/-- The mutable state of a `_ResamplingHelper`: the ring buffer (a
`deque(maxlen=...)`, modelled as the list of its elements oldest first
together with its `maxlen`) and the source properties. -/
structure HelperState where
  maxlen : Nat
  buffer : List RSample
  props : SourceProperties
deriving DecidableEq, Repr

/-- Embedding of `deque.append` on a deque with a `maxlen`: append to the right and, if
the deque would exceed `maxlen`, discard from the left. -/
def dequePush (maxlen : Nat) (buf : List RSample) (s : RSample) : List RSample :=
  let b := buf ++ [s]
  b.drop (b.length - maxlen)

/-- Embedding of `_ResamplingHelper.add_sample`: append the sample to the buffer, record
`sampling_start` on the first sample, and count it. -/
def add_sample (st : HelperState) (s : RSample) : HelperState :=
  { st with
    buffer := dequePush st.maxlen st.buffer s
    props := { st.props with
      sampling_start :=
        match st.props.sampling_start with
        | none => some s.timestamp
        | some t0 => some t0
      received_samples := st.props.received_samples + 1 } }

/-- Embedding of `Quantity.isnan()`. -/
def Val.isnan : Val → Bool
  | Val.nan => true
  | Val.num _ => false

/-- One iteration of `_StreamingHelper._receive_samples`: the sample is
handed to `add_sample` only when `sample.value is not None and not
sample.value.isnan()`. -/
def receive_sample (st : HelperState) (s : RSample) : HelperState :=
  match s.value with
  | none => st
  | some v => if v.isnan then st else add_sample st s

/-- Embedding of `_ResamplingHelper._update_source_sample_period`: infer the source
sampling period once enough samples have been seen.  Returns the new state
and whether the period was really updated. -/
def update_source_sample_period (c : ResamplerConfig) (st : HelperState) (now : ℚ) :
    HelperState × Bool :=
  match st.props.sampling_period, st.props.sampling_start with
  | some _, _ => (st, false)
  | none, none => (st, false)
  | none, some start =>
    if (st.props.received_samples : ℚ) < c.resampling_period * c.max_data_age_in_periods
        ∨ st.buffer.length < st.maxlen
        ∨ now ≤ start then
      (st, false)
    else
      let samples_time_delta := now - start
      ({ st with props := { st.props with
          sampling_period := some (samples_time_delta / (st.props.received_samples : ℚ)) } },
        true)

/-- Embedding of `_ResamplingHelper._update_buffer_len`: recompute the buffer length from
the inferred input sampling period, clamp it, and rebuild the buffer
(`deque(self._buffer, maxlen=new_buffer_len)` keeps the newest elements)
when the length changed.  Returns the new state and whether it changed. -/
def update_buffer_len (c : ResamplerConfig) (st : HelperState) : HelperState × Bool :=
  match st.props.sampling_period with
  | none => (st, false)
  | some input_sampling_period =>
    let raw : ℤ :=
      ⌈if c.resampling_period < input_sampling_period
        then input_sampling_period * c.max_data_age_in_periods
        else c.resampling_period / input_sampling_period * c.max_data_age_in_periods⌉
    let new_buffer_len : ℤ := max 1 raw
    let new_buffer_len : ℤ :=
      if (c.max_buffer_len : ℤ) < new_buffer_len then (c.max_buffer_len : ℤ)
      else new_buffer_len
    if new_buffer_len = (st.maxlen : ℤ) then (st, false)
    else
      let n := new_buffer_len.toNat
      ({ st with maxlen := n, buffer := st.buffer.drop (st.buffer.length - n) }, true)

/-- Python `bisect.bisect` (right bisection) on `self._buffer` with
`key=lambda s: s.timestamp`, as the textbook binary-search loop. -/
def bisectAux (l : List RSample) (x : ℚ) (lo hi : Nat) : Nat :=
  if _h : lo < hi then
    let mid := (lo + hi) / 2
    if x < (l.getD mid default).timestamp then
      bisectAux l x lo mid
    else
      bisectAux l x (mid + 1) hi
  else lo
termination_by hi - lo
decreasing_by
  all_goals simp_wf
  all_goals omega

/-- Embedding of `bisect(buffer, x, key=timestamp)` over the whole buffer. -/
def bisect (l : List RSample) (x : ℚ) : Nat := bisectAux l x 0 l.length

/-- The relevance window length used by `_ResamplingHelper.resample`:
`max(resampling_period, sampling_period)` when the sampling period is
known, else `resampling_period`. -/
def relevance_period (c : ResamplerConfig) (props : SourceProperties) : ℚ :=
  match props.sampling_period with
  | some sp => max c.resampling_period sp
  | none => c.resampling_period

/-- The `relevant_samples` selection inside `_ResamplingHelper.resample`:
right-bisect for the minimum relevant timestamp and for the window end, and
slice the buffer between the two indices (`itertools.islice`). -/
def relevant_samples (c : ResamplerConfig) (buffer : List RSample)
    (props : SourceProperties) (timestamp : ℚ) : List RSample :=
  let minimum_relevant_timestamp :=
    timestamp - relevance_period c props * c.max_data_age_in_periods
  let min_index := bisect buffer minimum_relevant_timestamp
  let max_index := bisect buffer timestamp
  (buffer.drop min_index).take (max_index - min_index)

/-- The type of `ResamplingFunction` (the `resampling_function` member of
the Python config, passed separately here). -/
def ResamplingFunction : Type :=
  List RSample → ResamplerConfig → SourceProperties → ℚ

/-- Embedding of `_ResamplingHelper.resample`: update the sampling period (and, when it
changed, the buffer length), select the relevant samples and produce the
new sample, whose value is `None` when no sample is relevant. -/
def resample (c : ResamplerConfig) (rfn : ResamplingFunction) (st : HelperState)
    (timestamp : ℚ) : HelperState × RSample :=
  let upd := update_source_sample_period c st timestamp
  let st1 := if upd.2 then (update_buffer_len c upd.1).1 else upd.1
  let rel := relevant_samples c st1.buffer st1.props timestamp
  let value : Option ℚ := if rel.isEmpty then none else some (rfn rel c st1.props)
  (st1, ⟨timestamp, value.map Val.num⟩)

/-- The two ways `average` can fail in Python: the `assert` on an empty
argument, and the `ZeroDivisionError` when no sample has a value. -/
inductive AvgError where
  | assertFailed : AvgError
  | zeroDivision : AvgError
deriving DecidableEq, Repr

/-- Float addition restricted to the values that occur here: NaN absorbs. -/
def Val.add : Val → Val → Val
  | Val.num a, Val.num b => Val.num (a + b)
  | _, _ => Val.nan

/-- Float division by a positive sample count: NaN propagates. -/
def Val.divNat : Val → Nat → Val
  | Val.num a, n => Val.num (a / (n : ℚ))
  | Val.nan, _ => Val.nan

/-- The default reduction function `average`: assert the argument is
non-empty, collect the `base_value` of the samples whose value is present,
and divide their sum by their count (a `ZeroDivisionError` when there are
none). -/
def average (samples : List RSample) : Except AvgError Val :=
  if samples.length = 0 then Except.error AvgError.assertFailed
  else
    let values := samples.filterMap (fun s => s.value)
    if values.length = 0 then Except.error AvgError.zeroDivision
    else Except.ok ((values.foldl Val.add (Val.num 0)).divNat values.length)

/-- One pass of the loop body of `Resampler.resample` over the registered
binders: every binder is resampled at the same scheduled `window_end`
(`asyncio.gather` with `return_exceptions=True` lets each run to
completion independently), the window end advances by one period, and the
exceptions are collected into the map a `ResamplingError` would carry.
Each binder is a source identifier paired with the outcome function of its
`_StreamingHelper.resample` (`ok` carries what was sent to the sink). -/
def resamplePass {σ ε δ : Type} (resampling_period window_end : ℚ)
    (resamplers : List (σ × (ℚ → Except ε δ))) :
    ℚ × List (σ × δ) × List (σ × ε) :=
  let results := resamplers.map (fun r => (r.1, r.2 window_end))
  let delivered := results.filterMap (fun r =>
    match r.2 with
    | Except.ok d => some (r.1, d)
    | Except.error _ => none)
  let exceptions := results.filterMap (fun r =>
    match r.2 with
    | Except.error e => some (r.1, e)
    | Except.ok _ => none)
  (window_end + resampling_period, delivered, exceptions)

/-- The observable state of `_StreamingHelper._receiving_task`: whether the
task is done, and the exception it captured (`None` when the source ended
cleanly). -/
structure ReceivingTask (ε : Type) where
  done : Bool
  exception : Option ε
deriving DecidableEq, Repr

/-- The outcome of `_StreamingHelper.resample`: the captured source
exception re-raised, or `SourceStoppedError`. -/
inductive StreamError (ε : Type) where
  | sourceError (e : ε) : StreamError ε
  | sourceStopped : StreamError ε
deriving DecidableEq, Repr

/-- Embedding of `_StreamingHelper.resample`: when the receiving task is done, re-raise
its captured exception (or `SourceStoppedError` when it ended cleanly);
otherwise compute the new sample and send it to the sink (`send` is the
composition of `_ResamplingHelper.resample` with the sink). -/
def streaming_resample {ε δ : Type} (task : ReceivingTask ε) (send : ℚ → δ)
    (timestamp : ℚ) : Except (StreamError ε) δ :=
  if task.done then
    match task.exception with
    | some e => Except.error (StreamError.sourceError e)
    | none => Except.error StreamError.sourceStopped
  else Except.ok (send timestamp)

end Resampling

namespace Matryoshka

/-- The `Bounds` record over power values: optional lower and upper endpoints (`None`
is unbounded on that side). -/
structure MBounds where
  lower : Option ℚ
  upper : Option ℚ
deriving DecidableEq, Repr

/-- A live proposal entry of the Matryoshka ledger for one battery set:
its source (an opaque identifier, modelled as a natural number), its bounds and its priority. -/
structure MProposal where
  source_id : Nat
  bounds : MBounds
  priority : ℤ
deriving DecidableEq, Repr

/-- Greater of two optional lower endpoints (`None` = unbounded below). -/
def lowerMax : Option ℚ → Option ℚ → Option ℚ
  | none, b => b
  | some a, none => some a
  | some a, some b => some (max a b)

/-- Lesser of two optional upper endpoints (`None` = unbounded above). -/
def upperMin : Option ℚ → Option ℚ → Option ℚ
  | none, b => b
  | some a, none => some a
  | some a, some b => some (min a b)

/-- Intersection of two bounds intervals. -/
def inter (a b : MBounds) : MBounds :=
  ⟨lowerMax a.lower b.lower, upperMin a.upper b.upper⟩

/-- Whether a bounds interval is empty (both endpoints present and
crossed). -/
def MBounds.isEmptyI (b : MBounds) : Bool :=
  match b.lower, b.upper with
  | some l, some u => decide (u < l)
  | _, _ => false

/-- Modelled from the spec: one step of the running-interval walk of
`Matryoshka.get_status` (the implementation `_matryoshka.py` is not part
of the sources; only its test is).  Per spec section 4.7, each live
bounds of each proposal are intersected with the running interval, and — as in
step 3a of `calculate_target_power`, which the test trace confirms also
governs the status walk — an intersection that would be empty is ignored,
leaving the interval unchanged. -/
def statusStep (r : MBounds) (p : MProposal) : MBounds :=
  let r' := inter r p.bounds
  if r'.isEmptyI then r else r'

/-- Modelled from the spec: the `inclusion_bounds` of the `Report` returned
by `Matryoshka.get_status(battery_set, tier_priority, system_bounds, _)`:
walk the live proposals of the ledger from the highest priority down to
`tier_priority + 1` (the ledger list is kept sorted by descending
priority), intersecting the bounds of each proposal with the running interval,
starting from `system_bounds.inclusion_bounds`. -/
def visibleBounds (ledger : List MProposal) (tier_priority : ℤ)
    (system_inclusion : MBounds) : MBounds :=
  (ledger.filter (fun p => decide (tier_priority < p.priority))).foldl
    statusStep system_inclusion

/-- Membership of a power value in a bounds interval. -/
def MBounds.memI (x : ℚ) (b : MBounds) : Prop :=
  (∀ l, b.lower = some l → l ≤ x) ∧ (∀ u, b.upper = some u → x ≤ u)

/-- The ledger is sorted by descending priority. -/
def LedgerSorted (ledger : List MProposal) : Prop :=
  ledger.Pairwise (fun a b => b.priority ≤ a.priority)

end Matryoshka

namespace Resampling

/-- The `base_value` of a sample whose value is present and numeric. -/
def sampleNum (s : RSample) : Option ℚ :=
  match s.value with
  | some (Val.num q) => some q
  | _ => none

/-- A sample with a numeric value, for concrete instantiations. -/
def mkNum (t v : ℚ) : RSample := ⟨t, some (Val.num v)⟩

/-- The configuration of seed scenario 1 of the spec: period 2 s, maximum
data age 2 periods, default buffer lengths, aligned to the epoch. -/
def cfgW : ResamplerConfig := ⟨2, 2, 16, 128, 1024, some ⟨0, true⟩⟩

/-- The helper state of seed scenario 1 after the samples at 1 s and 2 s
(values 4 and 8) arrived. -/
def stW : HelperState := ⟨16, [mkNum 1 4, mkNum 2 8], ⟨some 1, 2, none⟩⟩

/-- The arithmetic mean of the present numeric sample values, a concrete
`ResamplingFunction` for instantiating the theorems. -/
def avgFn : ResamplingFunction := fun l _ _ =>
  (l.filterMap sampleNum).sum / (l.length : ℚ)

/-- A `ResamplerConfig` whose `resampling_period` is the zero timedelta
while every other field keeps its (valid) default value:
`max_data_age_in_periods = 3.0`, `initial_buffer_len = 16`,
`warn_buffer_len = 128`, `max_buffer_len = 1024`, `align_to = UNIX_EPOCH`
(timezone aware). -/
def zeroPeriodConfig : ResamplerConfig := ⟨0, 3, 16, 128, 1024, some ⟨0, true⟩⟩

/-- The configuration of seed scenario 2 of the spec: period 1 s, maximum
data age 2 periods, no alignment. -/
def cfgP : ResamplerConfig := ⟨1, 2, 16, 128, 1024, none⟩

/-- A full four-slot buffer, twenty received samples since time 0, period
not yet inferred: ready for period inference at time 2. -/
def stInfer : HelperState :=
  ⟨4, [mkNum 1 1, mkNum 2 1, mkNum 3 1, mkNum 4 1], ⟨some 0, 20, none⟩⟩

/-- A helper state whose sampling period was inferred as 0.1 s, with the
initial 16-slot buffer (seed scenario 2, at the resize moment). -/
def stResize : HelperState := ⟨16, [mkNum 1 1, mkNum 2 1], ⟨some 0, 20, some (1/10)⟩⟩

/-- Two concrete stream binders for one pass: source 0 delivers the value 6
to its sink, source 1 raises the error 42. -/
def bindersW : List (Nat × (ℚ → Except Nat ℚ)) :=
  [(0, fun _ => Except.ok 6), (1, fun _ => Except.error 42)]

/-- Buffer timestamps are non-decreasing: the invariant the spec states for
samples within a single source stream, on which right-bisection relies. -/
def SortedTS (l : List RSample) : Prop :=
  l.Pairwise (fun u v => u.timestamp ≤ v.timestamp)

end Resampling

namespace Matryoshka

/-- The system inclusion bounds used by the Matryoshka test: [-200, 200]. -/
def sysW : MBounds := ⟨some (-200), some 200⟩

/-- A ledger (sorted by descending priority) taken from the Matryoshka
test trace: priority 3 proposes bounds [10, 15], priority 2 proposes
[25, 50], priority 1 proposes [20, 50]. -/
def ledgerW : List MProposal :=
  [⟨3, ⟨some 10, some 15⟩, 3⟩, ⟨2, ⟨some 25, some 50⟩, 2⟩, ⟨1, ⟨some 20, some 50⟩, 1⟩]

end Matryoshka

open Resampling Matryoshka

/-- Claim C2 (evaluation at the failing input): the embedded
`ResamplerConfig.__post_init__` check accepts a configuration whose
`resampling_period` is zero and whose other fields are the valid defaults,
because the code tests `total_seconds() < 0.0` although its own docstring
and error message demand a positive period. -/
theorem claim_C2_zero_period_accepted :
    post_init_ok zeroPeriodConfig = true ∧ zeroPeriodConfig.resampling_period = 0 := by
  constructor
  · decide
  · rfl

/-- Claim C7: for every construction time `now`, the first scheduled window
end is `now + period` with zero start delay when `align_to` is absent or
when `elapsed = (now - align_to) mod period` is zero, and
`now + 2 * period - elapsed` with start delay `period - elapsed` otherwise;
in the aligned case the first window end is a multiple of the period away
from `align_to`. -/
theorem claim_C7_first_window_end (c : ResamplerConfig) (now : ℚ) :
    (c.align_to = none →
      calculate_window_end c now = (now + c.resampling_period, 0))
    ∧ (∀ a, c.align_to = some a →
        (qmod (now - a.t) c.resampling_period = 0 →
          calculate_window_end c now = (now + c.resampling_period, 0))
        ∧ (qmod (now - a.t) c.resampling_period ≠ 0 →
          calculate_window_end c now =
            (now + 2 * c.resampling_period - qmod (now - a.t) c.resampling_period,
              c.resampling_period - qmod (now - a.t) c.resampling_period))
        ∧ ∃ k : ℤ, (calculate_window_end c now).1 = a.t + k * c.resampling_period) := by
  constructor
  · intro h
    simp [calculate_window_end, h]
  · intro a ha
    refine ⟨?_, ?_, ?_⟩
    · intro h0
      simp [calculate_window_end, ha, h0]
    · intro hne
      simp only [calculate_window_end, ha]
      rw [if_neg hne]
      rw [Prod.mk.injEq]
      constructor
      · ring
      · rfl
    · have hfl : now - a.t - c.resampling_period * (⌊(now - a.t) / c.resampling_period⌋ : ℚ)
          = qmod (now - a.t) c.resampling_period := by
        simp [qmod]
      by_cases h0 : qmod (now - a.t) c.resampling_period = 0
      · refine ⟨⌊(now - a.t) / c.resampling_period⌋ + 1, ?_⟩
        simp [calculate_window_end, ha, h0]
        rw [h0] at hfl
        linarith
      · refine ⟨⌊(now - a.t) / c.resampling_period⌋ + 2, ?_⟩
        simp only [calculate_window_end, ha]
        rw [if_neg h0]
        simp only [qmod] at hfl ⊢
        push_cast
        linarith

/-- Claim C8: once the receiving task of a stream binder has finished,
every call to `resample` raises the captured termination cause exactly —
the captured exception when the source raised, a `SourceStoppedError` when
the source ended cleanly — and never computes or sends an output. -/
theorem claim_C8_terminated_resample {ε δ : Type} (task : ReceivingTask ε)
    (send : ℚ → δ) (timestamp : ℚ) (hdone : task.done = true) :
    (∀ e, task.exception = some e →
      streaming_resample task send timestamp =
        Except.error (StreamError.sourceError e))
    ∧ (task.exception = none →
      streaming_resample task send timestamp =
        Except.error StreamError.sourceStopped)
    ∧ ∀ d, streaming_resample task send timestamp ≠ Except.ok d := by
  refine ⟨?_, ?_, ?_⟩
  · intro e he
    simp [streaming_resample, hdone, he]
  · intro he
    simp [streaming_resample, hdone, he]
  · intro d
    cases he : task.exception <;> simp [streaming_resample, hdone, he]

/-- Witness for claim C8 at a concrete finished task with a captured
exception. -/
theorem claim_C8_witness :
    streaming_resample (ε := Nat) (δ := Nat) ⟨true, some 7⟩ (fun _ => 0) 1 =
      Except.error (StreamError.sourceError 7) :=
  (claim_C8_terminated_resample ⟨true, some 7⟩ (fun _ => 0) 1 rfl).1 7 rfl

/-- Claim C4: a sample whose value is absent or NaN is silently dropped by
the receive step (buffer, `sampling_start` and `received_samples` are all
unchanged); any other sample is pushed to the buffer, `sampling_start` is
recorded on the first accepted sample and kept afterwards, and
`received_samples` grows by one. -/
theorem claim_C4_receive_sample (st : HelperState) (s : RSample) :
    ((s.value = none ∨ s.value = some Val.nan) → receive_sample st s = st)
    ∧ (∀ q, s.value = some (Val.num q) →
        receive_sample st s = add_sample st s
        ∧ (receive_sample st s).buffer =
            (st.buffer ++ [s]).drop ((st.buffer.length + 1) - st.maxlen)
        ∧ (receive_sample st s).props.received_samples =
            st.props.received_samples + 1
        ∧ (st.props.sampling_start = none →
            (receive_sample st s).props.sampling_start = some s.timestamp)
        ∧ (∀ t0, st.props.sampling_start = some t0 →
            (receive_sample st s).props.sampling_start = some t0)
        ∧ (receive_sample st s).props.sampling_period = st.props.sampling_period) := by
  constructor
  · rintro (h | h) <;> simp [receive_sample, h, Val.isnan]
  · intro q hq
    refine ⟨?_, ?_, ?_, ?_, ?_, ?_⟩
    · simp [receive_sample, hq, Val.isnan]
    · simp [receive_sample, hq, Val.isnan, add_sample, dequePush]
    · simp [receive_sample, hq, Val.isnan, add_sample]
    · intro h0
      simp [receive_sample, hq, Val.isnan, add_sample, h0]
    · intro t0 h0
      simp [receive_sample, hq, Val.isnan, add_sample, h0]
    · simp [receive_sample, hq, Val.isnan, add_sample]

/-- Witness for claim C4: a value-less sample is dropped without any state
change, at a concrete state. -/
theorem claim_C4_witness :
    receive_sample stW ⟨5, none⟩ = stW :=
  (claim_C4_receive_sample stW ⟨5, none⟩).1 (Or.inl rfl)

/-- Claim C3: in one pass of the resampling loop every registered binder is
resampled at the same scheduled window end, the window end then advances by
exactly one resampling period (also when the pass ends in an error), the
pass raises (a nonempty exception map) precisely when some binder raised,
the exception map holds exactly the failing sources, and the non-failing
binders of the same pass still delivered their results to their sinks. -/
theorem claim_C3_resample_pass (σ ε δ : Type) (period window_end : ℚ)
    (resamplers : List (σ × (ℚ → Except ε δ))) :
    (resamplePass period window_end resamplers).1 = window_end + period
    ∧ (((resamplePass period window_end resamplers).2.2 ≠ []) ↔
        ∃ r ∈ resamplers, ∃ e, r.2 window_end = Except.error e)
    ∧ (∀ s e, (s, e) ∈ (resamplePass period window_end resamplers).2.2 ↔
        ∃ f, (s, f) ∈ resamplers ∧ f window_end = Except.error e)
    ∧ (∀ s d, (s, d) ∈ (resamplePass period window_end resamplers).2.1 ↔
        ∃ f, (s, f) ∈ resamplers ∧ f window_end = Except.ok d) := by
  refine ⟨rfl, ?_, ?_, ?_⟩
  · rw [Ne, List.eq_nil_iff_forall_not_mem]
    push_neg
    constructor
    · rintro ⟨⟨s, e⟩, hmem⟩
      simp only [resamplePass, List.mem_filterMap, List.mem_map] at hmem
      obtain ⟨⟨s1, r1⟩, ⟨⟨s0, f0⟩, hm, heq⟩, hres⟩ := hmem
      cases heq
      dsimp only at hres
      cases hr : f0 window_end with
      | ok d => rw [hr] at hres; simp at hres
      | error e0 =>
        rw [hr] at hres
        simp at hres
        exact ⟨(s0, f0), hm, e0, hr⟩
    · rintro ⟨⟨s0, f0⟩, hm, e, hr⟩
      refine ⟨(s0, e), ?_⟩
      simp only [resamplePass, List.mem_filterMap, List.mem_map]
      exact ⟨(s0, Except.error e), ⟨(s0, f0), hm, by dsimp only at hr ⊢; rw [hr]⟩, rfl⟩
  · intro s e
    constructor
    · intro hmem
      simp only [resamplePass, List.mem_filterMap, List.mem_map] at hmem
      obtain ⟨⟨s1, r1⟩, ⟨⟨s0, f0⟩, hm, heq⟩, hres⟩ := hmem
      cases heq
      dsimp only at hres
      cases hr : f0 window_end with
      | ok d => rw [hr] at hres; simp at hres
      | error e0 =>
        rw [hr] at hres
        simp at hres
        obtain ⟨hs, he⟩ := hres
        subst hs
        subst he
        exact ⟨f0, hm, hr⟩
    · rintro ⟨f, hm, hr⟩
      simp only [resamplePass, List.mem_filterMap, List.mem_map]
      exact ⟨(s, Except.error e), ⟨(s, f), hm, by dsimp only at hr ⊢; rw [hr]⟩, rfl⟩
  · intro s d
    constructor
    · intro hmem
      simp only [resamplePass, List.mem_filterMap, List.mem_map] at hmem
      obtain ⟨⟨s1, r1⟩, ⟨⟨s0, f0⟩, hm, heq⟩, hres⟩ := hmem
      cases heq
      dsimp only at hres
      cases hr : f0 window_end with
      | error e0 => rw [hr] at hres; simp at hres
      | ok d0 =>
        rw [hr] at hres
        simp at hres
        obtain ⟨hs, he⟩ := hres
        subst hs
        subst he
        exact ⟨f0, hm, hr⟩
    · rintro ⟨f, hm, hr⟩
      simp only [resamplePass, List.mem_filterMap, List.mem_map]
      exact ⟨(s, Except.ok d), ⟨(s, f), hm, by dsimp only at hr ⊢; rw [hr]⟩, rfl⟩

/-- Witness for claim C3 at the two concrete binders: the window end
advances by the period, the failing source 1 is in the exception map, and
source 0 still delivered its result. -/
theorem claim_C3_witness :
    (resamplePass (σ := Nat) (ε := Nat) (δ := ℚ) 2 10 bindersW).1 = 12
    ∧ (1, 42) ∈ (resamplePass (σ := Nat) (ε := Nat) (δ := ℚ) 2 10 bindersW).2.2
    ∧ (0, (6 : ℚ)) ∈ (resamplePass (σ := Nat) (ε := Nat) (δ := ℚ) 2 10 bindersW).2.1 := by
  refine ⟨?_, ?_, ?_⟩
  · rw [(claim_C3_resample_pass Nat Nat ℚ 2 10 bindersW).1]
    norm_num
  · exact ((claim_C3_resample_pass Nat Nat ℚ 2 10 bindersW).2.2.1 1 42).mpr
      ⟨fun _ => Except.error 42, by simp [bindersW], rfl⟩
  · exact ((claim_C3_resample_pass Nat Nat ℚ 2 10 bindersW).2.2.2 0 6).mpr
      ⟨fun _ => Except.ok 6, by simp [bindersW], rfl⟩

/-- Witness for claim C7 at the epoch-aligned configuration with period 2
and construction time 7: elapsed is 1, so the first window end is 10 with a
start delay of 1. -/
theorem claim_C7_witness :
    calculate_window_end cfgW 7 = (10, 1) := by
  have h := ((claim_C7_first_window_end cfgW 7).2 ⟨0, true⟩ rfl).2.1
    (by norm_num [qmod, cfgW])
  rw [h]
  norm_num [qmod, cfgW]

/-- When the sampling period is already known, the period update is a
no-operation that reports no change. -/
lemma ussp_of_period_some (c : ResamplerConfig) (st : HelperState) (now : ℚ) (p : ℚ)
    (hp : st.props.sampling_period = some p) :
    update_source_sample_period c st now = (st, false) := by
  simp [update_source_sample_period, hp]

/-- Claim C5: the period update fires exactly when the period is unset, the
sampling start is recorded, enough samples were received, the buffer is at
capacity and time advanced past the start; it then sets the period to the
observed span divided by the sample count; it never fires once the period
is set, and neither receiving a sample nor resampling unsets a period. -/
theorem claim_C5_period_inference (c : ResamplerConfig) (st : HelperState) (now : ℚ)
    (hlen : st.buffer.length ≤ st.maxlen) :
    ((update_source_sample_period c st now).2 = true ↔
      (st.props.sampling_period = none
        ∧ ∃ start, st.props.sampling_start = some start
            ∧ c.resampling_period * c.max_data_age_in_periods ≤ (st.props.received_samples : ℚ)
            ∧ st.buffer.length = st.maxlen
            ∧ start < now))
    ∧ (∀ start, st.props.sampling_start = some start →
        (update_source_sample_period c st now).2 = true →
        (update_source_sample_period c st now).1.props.sampling_period =
          some ((now - start) / (st.props.received_samples : ℚ)))
    ∧ ((update_source_sample_period c st now).2 = false →
        (update_source_sample_period c st now).1 = st)
    ∧ (∀ p, st.props.sampling_period = some p →
        update_source_sample_period c st now = (st, false))
    ∧ (∀ s, (receive_sample st s).props.sampling_period = st.props.sampling_period)
    ∧ (∀ rfn ts p, st.props.sampling_period = some p →
        (resample c rfn st ts).1.props.sampling_period = some p) := by
  refine ⟨?_, ?_, ?_, ?_, ?_, ?_⟩
  · rcases hp : st.props.sampling_period with _ | p0
    · rcases hst : st.props.sampling_start with _ | start0
      · simp [update_source_sample_period, hp, hst]
      · by_cases hcond :
          ((st.props.received_samples : ℚ) < c.resampling_period * c.max_data_age_in_periods
            ∨ st.buffer.length < st.maxlen ∨ now ≤ start0)
        · simp only [update_source_sample_period, hp, hst, if_pos hcond]
          constructor
          · intro h
            exact absurd h (by simp)
          · rintro ⟨-, start, hstart, hrecv, hfull, hnow⟩
            exfalso
            cases hstart
            rcases hcond with h | h | h
            · exact absurd hrecv (not_le.mpr h)
            · omega
            · exact absurd hnow (not_lt.mpr h)
        · simp only [update_source_sample_period, hp, hst, if_neg hcond]
          push_neg at hcond
          obtain ⟨h1, h2, h3⟩ := hcond
          constructor
          · intro _
            exact ⟨trivial, start0, rfl, h1, le_antisymm hlen h2, h3⟩
          · intro _
            trivial
    · rw [ussp_of_period_some c st now p0 hp]
      simp [hp]
  · intro start hst hfired
    rcases hp : st.props.sampling_period with _ | p0
    · by_cases hcond :
        ((st.props.received_samples : ℚ) < c.resampling_period * c.max_data_age_in_periods
          ∨ st.buffer.length < st.maxlen ∨ now ≤ start)
      · rw [update_source_sample_period] at hfired
        simp only [hp, hst, if_pos hcond] at hfired
        simp at hfired
      · rw [update_source_sample_period]
        simp only [hp, hst, if_neg hcond]
    · rw [ussp_of_period_some c st now p0 hp] at hfired
      simp at hfired
  · intro hfalse
    rcases hp : st.props.sampling_period with _ | p0
    · rcases hst : st.props.sampling_start with _ | start0
      · simp [update_source_sample_period, hp, hst]
      · by_cases hcond :
          ((st.props.received_samples : ℚ) < c.resampling_period * c.max_data_age_in_periods
            ∨ st.buffer.length < st.maxlen ∨ now ≤ start0)
        · simp [update_source_sample_period, hp, hst, if_pos hcond]
        · rw [update_source_sample_period] at hfalse
          simp only [hp, hst, if_neg hcond] at hfalse
          simp at hfalse
    · rw [ussp_of_period_some c st now p0 hp]
  · intro p hp
    exact ussp_of_period_some c st now p hp
  · intro s
    rcases hv : s.value with _ | v
    · simp [receive_sample, hv]
    · rcases v with _ | q
      · simp [receive_sample, hv, Val.isnan]
      · simp [receive_sample, hv, Val.isnan, add_sample]
  · intro rfn ts p hp
    rw [resample]
    rw [ussp_of_period_some c st ts p hp]
    simp [hp]

/-- Witness for claim C5 at seed scenario 2: twenty samples over two
seconds with a full buffer make the update fire and infer a period of
0.1 s. -/
theorem claim_C5_witness :
    (update_source_sample_period cfgP stInfer 2).2 = true
    ∧ (update_source_sample_period cfgP stInfer 2).1.props.sampling_period =
        some (1 / 10) := by
  have h := claim_C5_period_inference cfgP stInfer 2 (by decide)
  have hfired := h.1.mpr
    ⟨rfl, 0, rfl, by norm_num [cfgP, stInfer], by decide, by norm_num⟩
  refine ⟨hfired, ?_⟩
  rw [h.2.1 0 rfl hfired]
  norm_num [stInfer]

/-- Claim C6: after period inference the new buffer length is the ceiling
of `input_period * max_data_age` when upsampling, of
`resampling_period / input_period * max_data_age` when downsampling,
clamped into `[1, max_buffer_len]`; the buffer is rebuilt — keeping the
newest samples in their order, as the suffix of the old buffer — exactly
when this length differs from the current `maxlen`. -/
theorem claim_C6_buffer_resize (c : ResamplerConfig) (st : HelperState) (p : ℚ)
    (hp : st.props.sampling_period = some p) :
    ∀ new_len : ℤ,
      new_len = min (c.max_buffer_len : ℤ)
        (max 1 ⌈if c.resampling_period < p
                  then p * c.max_data_age_in_periods
                  else c.resampling_period / p * c.max_data_age_in_periods⌉) →
      ((update_buffer_len c st).2 = true ↔ new_len ≠ (st.maxlen : ℤ))
      ∧ (new_len = (st.maxlen : ℤ) → update_buffer_len c st = (st, false))
      ∧ (new_len ≠ (st.maxlen : ℤ) →
          (update_buffer_len c st).1.maxlen = new_len.toNat
          ∧ (update_buffer_len c st).1.buffer =
              st.buffer.drop (st.buffer.length - new_len.toNat)
          ∧ (update_buffer_len c st).1.props = st.props) := by
  intro new_len hn
  have hm : (if (c.max_buffer_len : ℤ) <
        max 1 ⌈if c.resampling_period < p
                then p * c.max_data_age_in_periods
                else c.resampling_period / p * c.max_data_age_in_periods⌉
      then (c.max_buffer_len : ℤ)
      else max 1 ⌈if c.resampling_period < p
                then p * c.max_data_age_in_periods
                else c.resampling_period / p * c.max_data_age_in_periods⌉) = new_len := by
    rw [hn]
    generalize (⌈if c.resampling_period < p
        then p * c.max_data_age_in_periods
        else c.resampling_period / p * c.max_data_age_in_periods⌉ : ℤ) = R
    split_ifs with h
    · omega
    · omega
  simp only [update_buffer_len, hp]
  rw [hm]
  by_cases hEq : new_len = (st.maxlen : ℤ)
  · simp [hEq]
  · simp [hEq]

/-- Witness for claim C6 at seed scenario 2: with a 1 s resampling period
and an inferred 0.1 s input period the buffer grows from 16 to
`⌈1 / 0.1 * 2⌉ = 20` slots. -/
theorem claim_C6_witness :
    (update_buffer_len cfgP stResize).2 = true
    ∧ (update_buffer_len cfgP stResize).1.maxlen = 20 := by
  have h := claim_C6_buffer_resize cfgP stResize (1 / 10) rfl 20 (by norm_num [cfgP])
  refine ⟨h.1.mpr (by decide), ?_⟩
  rw [(h.2.2 (by decide)).1]
  rfl

/-- Folding float addition over numeric values sums the rationals. -/
lemma foldl_val_add_map_num (qs : List ℚ) :
    ∀ a : ℚ, (qs.map Val.num).foldl Val.add (Val.num a) = Val.num (a + qs.sum) := by
  induction qs with
  | nil => intro a; simp
  | cons q t ih =>
    intro a
    simp only [List.map_cons, List.foldl_cons, Val.add, List.sum_cons]
    rw [ih (a + q)]
    ring_nf

/-- When no sample value is NaN, the list of present values is the list of
present numeric values. -/
lemma filterMap_value_eq_map_num (samples : List RSample)
    (hnonan : ∀ s ∈ samples, s.value ≠ some Val.nan) :
    samples.filterMap (fun s => s.value) = (samples.filterMap sampleNum).map Val.num := by
  induction samples with
  | nil => simp
  | cons s t ih =>
    have hs := hnonan s (by simp)
    have ht : ∀ u ∈ t, u.value ≠ some Val.nan := fun u hu => hnonan u (by simp [hu])
    rcases hv : s.value with _ | v
    · simp [List.filterMap_cons, hv, sampleNum, ih ht]
    · rcases v with _ | q
      · exact absurd hv hs
      · simp [List.filterMap_cons, hv, sampleNum, ih ht]

/-- The number of present values equals the count of samples with a present
value. -/
lemma length_filterMap_value (samples : List RSample) :
    (samples.filterMap (fun s => s.value)).length =
      samples.countP (fun s => s.value.isSome) := by
  induction samples with
  | nil => simp
  | cons s t ih =>
    rcases hv : s.value with _ | v <;>
      simp [List.filterMap_cons, hv, List.countP_cons, ih]

/-- Claim C10: `average` asserts only that its argument is non-empty; on a
non-empty argument it succeeds exactly when some sample has a present
value, reaching the division by zero otherwise; and when every present
value is numeric it returns the sum of the present `base_value`s divided
by their count. -/
theorem claim_C10_average :
    average [] = Except.error AvgError.assertFailed
    ∧ ∀ samples : List RSample, samples ≠ [] →
        ((∃ v, average samples = Except.ok v) ↔ ∃ s ∈ samples, s.value.isSome = true)
        ∧ ((∀ s ∈ samples, s.value = none) →
            average samples = Except.error AvgError.zeroDivision)
        ∧ ((∀ s ∈ samples, s.value ≠ some Val.nan) →
            0 < samples.countP (fun s => s.value.isSome) →
            average samples = Except.ok (Val.num
              ((samples.filterMap sampleNum).sum /
                (samples.countP (fun s => s.value.isSome) : ℚ)))) := by
  refine ⟨rfl, ?_⟩
  intro samples hne
  have hlen : ¬ samples.length = 0 := by
    simpa [List.length_eq_zero] using hne
  refine ⟨?_, ?_, ?_⟩
  · constructor
    · rintro ⟨v, hv⟩
      by_contra hnone
      push_neg at hnone
      have hmap : samples.filterMap (fun s => s.value) = [] := by
        rw [List.filterMap_eq_nil_iff]
        intro s hs
        have h1 := hnone s hs
        cases hv : s.value with
        | none => rfl
        | some v => exact absurd (by simp [hv]) h1
      rw [average, if_neg hlen] at hv
      simp only [hmap] at hv
      simp at hv
    · rintro ⟨s, hs, hsome⟩
      have hmem : ∀ v0, s.value = some v0 → v0 ∈ samples.filterMap (fun u => u.value) := by
        intro v0 hv0
        exact List.mem_filterMap.mpr ⟨s, hs, hv0⟩
      rcases hv0 : s.value with _ | v0
      · rw [hv0] at hsome; simp at hsome
      · have hlen2 : ¬ (samples.filterMap (fun u => u.value)).length = 0 := by
          intro h0
          rw [List.length_eq_zero] at h0
          have := hmem v0 hv0
          rw [h0] at this
          simp at this
        refine ⟨((samples.filterMap (fun u => u.value)).foldl Val.add (Val.num 0)).divNat
          (samples.filterMap (fun u => u.value)).length, ?_⟩
        rw [average, if_neg hlen]
        simp only [if_neg hlen2]
  · intro hall
    have hmap : samples.filterMap (fun s => s.value) = [] := by
      rw [List.filterMap_eq_nil_iff]
      exact hall
    rw [average, if_neg hlen]
    simp only [hmap]
    simp
  · intro hnonan hcount
    have hmap := filterMap_value_eq_map_num samples hnonan
    have hcnt := length_filterMap_value samples
    have hlen2 : ¬ (samples.filterMap (fun u => u.value)).length = 0 := by
      omega
    rw [average, if_neg hlen]
    simp only [if_neg hlen2]
    rw [hmap, foldl_val_add_map_num]
    rw [Val.divNat]
    have : ((samples.filterMap sampleNum).map Val.num).length =
        samples.countP (fun s => s.value.isSome) := by
      rw [← hmap, hcnt]
    rw [this]
    norm_num

/-- Witness for claim C10: the mean of 4 and 8 with an absent value in
between is 6. -/
theorem claim_C10_witness :
    average [mkNum 1 4, ⟨2, none⟩, mkNum 3 8] = Except.ok (Val.num 6) := by
  rw [(claim_C10_average.2 [mkNum 1 4, ⟨2, none⟩, mkNum 3 8] (by decide)).2.2
    (by decide) (by decide)]
  norm_num [sampleNum, mkNum, List.filterMap_cons, List.countP_cons]

/-- Membership in an intersection implies membership in the left operand. -/
lemma memI_inter_left (x : ℚ) (r b : MBounds) :
    MBounds.memI x (inter r b) → MBounds.memI x r := by
  rintro ⟨hl, hu⟩
  constructor
  · intro l hrl
    rcases hb : b.lower with _ | bl
    · exact hl l (by simp [inter, lowerMax, hrl, hb])
    · have := hl (max l bl) (by simp [inter, lowerMax, hrl, hb])
      exact le_trans (le_max_left l bl) this
  · intro u hru
    rcases hb : b.upper with _ | bu
    · exact hu u (by simp [inter, upperMin, hru, hb])
    · have := hu (min u bu) (by simp [inter, upperMin, hru, hb])
      exact le_trans this (min_le_left u bu)

/-- One status step can only shrink the running interval. -/
lemma memI_statusStep (x : ℚ) (r : MBounds) (p : MProposal) :
    MBounds.memI x (statusStep r p) → MBounds.memI x r := by
  intro hmem
  rw [statusStep] at hmem
  split at hmem
  · exact hmem
  · exact memI_inter_left x r p.bounds hmem

/-- Folding status steps can only shrink the running interval. -/
lemma memI_foldl (x : ℚ) :
    ∀ (l : List MProposal) (acc : MBounds),
      MBounds.memI x (l.foldl statusStep acc) → MBounds.memI x acc := by
  intro l
  induction l with
  | nil => exact fun acc h => h
  | cons q t ih =>
    intro acc h
    exact memI_statusStep x acc q (ih (statusStep acc q) h)

/-- Unfolding of the status walk over a ledger head. -/
lemma visible_cons (q : MProposal) (t : List MProposal) (p : ℤ) (sys : MBounds) :
    visibleBounds (q :: t) p sys =
      if p < q.priority then visibleBounds t p (statusStep sys q)
      else visibleBounds t p sys := by
  unfold visibleBounds
  rw [List.filter_cons]
  by_cases h : p < q.priority
  · simp [h]
  · simp [h]

/-- A tier above every live proposal sees exactly the system inclusion
interval. -/
lemma visible_top (ledger : List MProposal) (p : ℤ) (sys : MBounds)
    (h : ∀ q ∈ ledger, q.priority ≤ p) : visibleBounds ledger p sys = sys := by
  unfold visibleBounds
  have hnil : ledger.filter (fun q => decide (p < q.priority)) = [] := by
    rw [List.filter_eq_nil_iff]
    intro q hq
    simpa using not_lt.mpr (h q hq)
  rw [hnil]
  rfl

/-- Status intervals shrink as the queried priority decreases. -/
lemma visible_mono :
    ∀ ledger : List MProposal, LedgerSorted ledger →
      ∀ (sys : MBounds) (p₁ p₂ : ℤ), p₂ < p₁ → ∀ x : ℚ,
        MBounds.memI x (visibleBounds ledger p₂ sys) →
        MBounds.memI x (visibleBounds ledger p₁ sys) := by
  intro ledger
  induction ledger with
  | nil =>
    intro _ sys p₁ p₂ _ x h
    simpa [visibleBounds] using h
  | cons q t ih =>
    intro hs sys p₁ p₂ hp x
    rw [LedgerSorted, List.pairwise_cons] at hs
    obtain ⟨hq, ht⟩ := hs
    rw [visible_cons, visible_cons]
    by_cases h1 : p₁ < q.priority
    · have h2 : p₂ < q.priority := lt_trans hp h1
      rw [if_pos h1, if_pos h2]
      exact ih ht (statusStep sys q) p₁ p₂ hp x
    · have htop : visibleBounds t p₁ sys = sys :=
        visible_top t p₁ sys (fun u hu => le_trans (hq u hu) (not_lt.1 h1))
      rw [if_neg h1]
      by_cases h2 : p₂ < q.priority
      · rw [if_pos h2, htop]
        intro hmem
        rw [visibleBounds] at hmem
        exact memI_statusStep x sys q
          (memI_foldl x (t.filter (fun u => decide (p₂ < u.priority))) (statusStep sys q) hmem)
      · rw [if_neg h2]
        exact ih ht sys p₁ p₂ hp x

/-- Claim C9: for every ledger state (kept in descending-priority order)
and system bounds, the inclusion interval `get_status` reports to a lower
tier is contained in the interval reported to any higher tier, and a tier
above every live proposal is reported exactly the system inclusion
interval. -/
theorem claim_C9_status_monotone (ledger : List MProposal) (sys : MBounds)
    (hs : LedgerSorted ledger) :
    (∀ p₁ p₂ : ℤ, p₂ < p₁ → ∀ x : ℚ,
      MBounds.memI x (visibleBounds ledger p₂ sys) →
      MBounds.memI x (visibleBounds ledger p₁ sys))
    ∧ (∀ p : ℤ, (∀ q ∈ ledger, q.priority ≤ p) →
        visibleBounds ledger p sys = sys) :=
  ⟨fun p₁ p₂ h x => visible_mono ledger hs sys p₁ p₂ h x,
   fun p h => visible_top ledger p sys h⟩

/-- Witness for claim C9 at the concrete three-tier ledger: priority 5 sits
above all live proposals and is reported the full system interval. -/
theorem claim_C9_witness :
    visibleBounds ledgerW 5 sysW = sysW :=
  (claim_C9_status_monotone ledgerW sysW
    (by simp [LedgerSorted, ledgerW, List.pairwise_cons])).2 5 (by decide)

/-- Reading a list with a default at an in-range index is `get`. -/
lemma getD_eq_get_at {α : Type} [Inhabited α] (l : List α) (n : Nat) (h : n < l.length) :
    l.getD n default = l.get ⟨n, h⟩ := by
  simp [List.getD_eq_getElem?_getD, List.getElem?_eq_getElem h, List.get_eq_getElem]

/-- A boolean predicate that holds exactly on the first `k` positions of a
list is satisfied by exactly `k` elements. -/
lemma countP_eq_of_index_iff {α : Type} (p : α → Bool) :
    ∀ (l : List α) (k : Nat), k ≤ l.length →
      (∀ i (h : i < l.length), (p (l.get ⟨i, h⟩) = true ↔ i < k)) →
      l.countP p = k := by
  intro l
  induction l with
  | nil =>
    intro k hk _
    have hk0 : k = 0 := by simpa using hk
    subst hk0
    simp
  | cons a t ih =>
    intro k hk hiff
    rcases k with _ | j
    · have h0 := hiff 0 (by simp)
      have ha : p a = false := by
        rcases hpa : p a
        · rfl
        · exact absurd (h0.mp hpa) (by omega)
      have ht : t.countP p = 0 := by
        apply ih 0 (by omega)
        intro i h
        have h2 := hiff (i + 1) (by simpa using Nat.succ_lt_succ h)
        simpa using h2
      rw [List.countP_cons, ha, ht]
      simp
    · have ha : p a = true := (hiff 0 (by simp)).mpr (by omega)
      have ht : t.countP p = j := by
        apply ih j (by simpa using hk)
        intro i h
        have h2 := hiff (i + 1) (by simpa using Nat.succ_lt_succ h)
        simp only [List.get_cons_succ] at h2
        rw [h2]
        omega
      rw [List.countP_cons, ha, ht]
      simp

/-- In a sorted buffer, timestamps are monotone in the index. -/
lemma sorted_get_le (l : List RSample) (hs : SortedTS l) (i j : Nat)
    (hi : i < l.length) (hj : j < l.length) (hij : i ≤ j) :
    (l.get ⟨i, hi⟩).timestamp ≤ (l.get ⟨j, hj⟩).timestamp := by
  rcases eq_or_lt_of_le hij with h | h
  · subst h
    rfl
  · exact List.pairwise_iff_get.1 hs ⟨i, hi⟩ ⟨j, hj⟩ h

/-- The binary-search loop of `bisect` computes, on a sorted buffer, the
number of elements with timestamp at most the key, given the invariant
that everything below `lo` is at most the key and everything from `hi` on
exceeds it. -/
lemma bisectAux_eq (l : List RSample) (x : ℚ) (hs : SortedTS l) :
    ∀ n lo hi : Nat, hi - lo = n → lo ≤ hi → hi ≤ l.length →
      (∀ i (h : i < l.length), i < lo → (l.get ⟨i, h⟩).timestamp ≤ x) →
      (∀ i (h : i < l.length), hi ≤ i → x < (l.get ⟨i, h⟩).timestamp) →
      bisectAux l x lo hi = l.countP (fun s => decide (s.timestamp ≤ x)) := by
  intro n
  induction n using Nat.strong_induction_on with
  | _ n ih =>
    intro lo hi hn hlo hhi H1 H2
    rw [bisectAux]
    split
    case isTrue hlt =>
      have hmidlt : (lo + hi) / 2 < l.length := by omega
      show (if x < (l.getD ((lo + hi) / 2) default).timestamp
          then bisectAux l x lo ((lo + hi) / 2)
          else bisectAux l x ((lo + hi) / 2 + 1) hi) =
        l.countP (fun s => decide (s.timestamp ≤ x))
      rw [getD_eq_get_at l ((lo + hi) / 2) hmidlt]
      split
      case isTrue hx =>
        apply ih ((lo + hi) / 2 - lo) (by omega) lo ((lo + hi) / 2) rfl
          (by omega) (by omega) H1
        intro i h hge
        exact lt_of_lt_of_le hx (sorted_get_le l hs ((lo + hi) / 2) i hmidlt h hge)
      case isFalse hx =>
        push_neg at hx
        apply ih (hi - ((lo + hi) / 2 + 1)) (by omega) ((lo + hi) / 2 + 1) hi rfl
          (by omega) hhi
        · intro i h hlt2
          exact le_trans (sorted_get_le l hs i ((lo + hi) / 2) h hmidlt (by omega)) hx
        · exact H2
    case isFalse hnlt =>
      have heq : lo = hi := by omega
      subst heq
      refine (countP_eq_of_index_iff _ l lo (by omega) ?_).symm
      intro i h
      constructor
      · intro hp
        by_contra hge
        push_neg at hge
        have := H2 i h hge
        rw [decide_eq_true_eq] at hp
        exact absurd hp (not_le.mpr this)
      · intro hilt
        rw [decide_eq_true_eq]
        exact H1 i h hilt

/-- On a sorted buffer, right bisection returns the number of elements with
timestamp at most the key. -/
lemma bisect_eq_countP (l : List RSample) (x : ℚ) (hs : SortedTS l) :
    bisect l x = l.countP (fun s => decide (s.timestamp ≤ x)) :=
  bisectAux_eq l x hs l.length 0 l.length (by omega) (by omega) le_rfl
    (fun i _ hi0 => absurd hi0 (by omega))
    (fun i h hge => absurd h (not_lt.mpr hge))

/-- On a sorted buffer, the elements with timestamp at most `c` form a
prefix: filtering equals taking while. -/
lemma sorted_filter_le_eq_takeWhile (c : ℚ) :
    ∀ l : List RSample, SortedTS l →
      l.filter (fun s => decide (s.timestamp ≤ c)) =
        l.takeWhile (fun s => decide (s.timestamp ≤ c)) := by
  intro l
  induction l with
  | nil => simp
  | cons a t ih =>
    intro hs
    rw [SortedTS, List.pairwise_cons] at hs
    obtain ⟨ha, ht⟩ := hs
    by_cases hac : a.timestamp ≤ c
    · simp only [List.filter_cons, List.takeWhile_cons]
      simp [hac, ih ht]
    · have hnil : t.filter (fun s => decide (s.timestamp ≤ c)) = [] := by
        rw [List.filter_eq_nil_iff]
        intro s hsmem
        simp only [decide_eq_true_eq]
        intro hsc
        exact hac (le_trans (ha s hsmem) hsc)
      simp only [List.filter_cons, List.takeWhile_cons]
      simp [hac, hnil]

/-- On a sorted buffer, everything left after dropping the prefix of
timestamps at most `c` has timestamp above `c`. -/
lemma mem_dropWhile_gt (c : ℚ) :
    ∀ l : List RSample, SortedTS l →
      ∀ s ∈ l.dropWhile (fun u => decide (u.timestamp ≤ c)), c < s.timestamp := by
  intro l
  induction l with
  | nil => simp
  | cons a t ih =>
    intro hs s hmem
    rw [SortedTS, List.pairwise_cons] at hs
    obtain ⟨ha, ht⟩ := hs
    by_cases hac : a.timestamp ≤ c
    · rw [List.dropWhile_cons] at hmem
      simp only [hac, decide_eq_true_eq, if_true, decide_eq_false_iff_not] at hmem
      exact ih ht s hmem
    · rw [List.dropWhile_cons] at hmem
      rw [if_neg (by simpa using hac)] at hmem
      rcases List.mem_cons.mp hmem with rfl | hmem2
      · exact not_le.mp hac
      · exact lt_of_lt_of_le (not_le.mp hac) (ha s hmem2)

/-- The slice of a sorted buffer between the right-bisection counts for `a`
and for `b` is exactly the sublist of elements with timestamp in `(a, b]`. -/
lemma slice_eq_filter (l : List RSample) (hs : SortedTS l) (a b : ℚ) :
    (l.drop (l.countP (fun s => decide (s.timestamp ≤ a)))).take
        (l.countP (fun s => decide (s.timestamp ≤ b)) -
          l.countP (fun s => decide (s.timestamp ≤ a))) =
      l.filter (fun s => decide (a < s.timestamp) && decide (s.timestamp ≤ b)) := by
  have hTD : l.takeWhile (fun s => decide (s.timestamp ≤ a)) ++
      l.dropWhile (fun s => decide (s.timestamp ≤ a)) = l :=
    List.takeWhile_append_dropWhile _ l
  have hcountA : l.countP (fun s => decide (s.timestamp ≤ a)) =
      (l.takeWhile (fun s => decide (s.timestamp ≤ a))).length := by
    rw [List.countP_eq_length_filter, sorted_filter_le_eq_takeWhile a l hs]
  have hdrop : l.drop (l.countP (fun s => decide (s.timestamp ≤ a))) =
      l.dropWhile (fun s => decide (s.timestamp ≤ a)) := by
    have hdl := List.drop_left (l.takeWhile (fun s => decide (s.timestamp ≤ a)))
      (l.dropWhile (fun s => decide (s.timestamp ≤ a)))
    rw [hTD] at hdl
    rw [hcountA]
    exact hdl
  have hDsorted : SortedTS (l.dropWhile (fun s => decide (s.timestamp ≤ a))) :=
    hs.sublist (List.dropWhile_sublist _)
  have hcountB : l.countP (fun s => decide (s.timestamp ≤ b)) =
      (l.takeWhile (fun s => decide (s.timestamp ≤ a))).countP
          (fun s => decide (s.timestamp ≤ b))
        + (l.dropWhile (fun s => decide (s.timestamp ≤ a))).countP
          (fun s => decide (s.timestamp ≤ b)) := by
    conv_lhs => rw [← hTD]
    rw [List.countP_append]
  have hfilter : l.filter (fun s => decide (a < s.timestamp) && decide (s.timestamp ≤ b)) =
      (l.takeWhile (fun s => decide (s.timestamp ≤ a))).filter
          (fun s => decide (a < s.timestamp) && decide (s.timestamp ≤ b))
        ++ (l.dropWhile (fun s => decide (s.timestamp ≤ a))).filter
          (fun s => decide (a < s.timestamp) && decide (s.timestamp ≤ b)) := by
    conv_lhs => rw [← hTD]
    rw [List.filter_append]
  have hfT : (l.takeWhile (fun s => decide (s.timestamp ≤ a))).filter
      (fun s => decide (a < s.timestamp) && decide (s.timestamp ≤ b)) = [] := by
    rw [List.filter_eq_nil_iff]
    intro s hsmem
    rw [← sorted_filter_le_eq_takeWhile a l hs] at hsmem
    have hsa : s.timestamp ≤ a := by
      simpa using (List.mem_filter.mp hsmem).2
    simp [not_lt.mpr hsa]
  have hfD : (l.dropWhile (fun s => decide (s.timestamp ≤ a))).filter
      (fun s => decide (a < s.timestamp) && decide (s.timestamp ≤ b)) =
      (l.dropWhile (fun s => decide (s.timestamp ≤ a))).filter
        (fun s => decide (s.timestamp ≤ b)) := by
    apply List.filter_congr
    intro s hsmem
    have := mem_dropWhile_gt a l hs s hsmem
    simp [this]
  by_cases hab : a ≤ b
  · have hTfull : (l.takeWhile (fun s => decide (s.timestamp ≤ a))).countP
        (fun s => decide (s.timestamp ≤ b)) =
        (l.takeWhile (fun s => decide (s.timestamp ≤ a))).length := by
      rw [List.countP_eq_length]
      intro s hsmem
      rw [← sorted_filter_le_eq_takeWhile a l hs] at hsmem
      have hsa : s.timestamp ≤ a := by
        simpa using (List.mem_filter.mp hsmem).2
      simpa using le_trans hsa hab
    have hsub : l.countP (fun s => decide (s.timestamp ≤ b)) -
        l.countP (fun s => decide (s.timestamp ≤ a)) =
        (l.dropWhile (fun s => decide (s.timestamp ≤ a))).countP
          (fun s => decide (s.timestamp ≤ b)) := by
      omega
    have hcountD : (l.dropWhile (fun s => decide (s.timestamp ≤ a))).countP
        (fun s => decide (s.timestamp ≤ b)) =
        ((l.dropWhile (fun s => decide (s.timestamp ≤ a))).takeWhile
          (fun s => decide (s.timestamp ≤ b))).length := by
      rw [List.countP_eq_length_filter,
        sorted_filter_le_eq_takeWhile b _ hDsorted]
    have htakeD : (l.dropWhile (fun s => decide (s.timestamp ≤ a))).take
        ((l.dropWhile (fun s => decide (s.timestamp ≤ a))).takeWhile
          (fun s => decide (s.timestamp ≤ b))).length =
        (l.dropWhile (fun s => decide (s.timestamp ≤ a))).takeWhile
          (fun s => decide (s.timestamp ≤ b)) := by
      have htl := List.take_left
        ((l.dropWhile (fun s => decide (s.timestamp ≤ a))).takeWhile
          (fun s => decide (s.timestamp ≤ b)))
        ((l.dropWhile (fun s => decide (s.timestamp ≤ a))).dropWhile
          (fun s => decide (s.timestamp ≤ b)))
      rw [List.takeWhile_append_dropWhile] at htl
      exact htl
    rw [hdrop, hsub, hcountD, htakeD, hfilter, hfT, hfD,
      sorted_filter_le_eq_takeWhile b _ hDsorted]
    simp
  · push_neg at hab
    have hmono : l.countP (fun s => decide (s.timestamp ≤ b)) ≤
        l.countP (fun s => decide (s.timestamp ≤ a)) := by
      apply List.countP_mono_left
      intro s _
      simp only [decide_eq_true_eq]
      intro hsb
      exact le_trans hsb (le_of_lt hab)
    have hzero : l.countP (fun s => decide (s.timestamp ≤ b)) -
        l.countP (fun s => decide (s.timestamp ≤ a)) = 0 := by omega
    have hfnil : l.filter (fun s => decide (a < s.timestamp) && decide (s.timestamp ≤ b)) = [] := by
      rw [List.filter_eq_nil_iff]
      intro s _
      simp only [Bool.and_eq_true, decide_eq_true_eq, not_and]
      intro hlt hle
      exact absurd (lt_of_lt_of_le hlt hle) (not_lt.mpr (le_of_lt hab))
    rw [hzero, hfnil]
    simp

/-- The relevant-sample selection of `resample` picks, on a sorted buffer,
exactly the buffered samples with timestamp in
`(timestamp - period * max_data_age, timestamp]`. -/
lemma relevant_samples_eq_filter (c : ResamplerConfig) (buf : List RSample)
    (props : SourceProperties) (ts : ℚ) (hs : SortedTS buf) :
    relevant_samples c buf props ts =
      buf.filter (fun s =>
        decide (ts - relevance_period c props * c.max_data_age_in_periods < s.timestamp)
        && decide (s.timestamp ≤ ts)) := by
  show (buf.drop (bisect buf (ts - relevance_period c props * c.max_data_age_in_periods))).take
      (bisect buf ts - bisect buf (ts - relevance_period c props * c.max_data_age_in_periods)) =
    buf.filter (fun s =>
      decide (ts - relevance_period c props * c.max_data_age_in_periods < s.timestamp)
      && decide (s.timestamp ≤ ts))
  rw [bisect_eq_countP buf _ hs, bisect_eq_countP buf _ hs]
  exact slice_eq_filter buf hs _ ts

/-- The period update never touches the buffer. -/
lemma ussp_fst_buffer (c : ResamplerConfig) (st : HelperState) (now : ℚ) :
    (update_source_sample_period c st now).1.buffer = st.buffer := by
  rcases hp : st.props.sampling_period with _ | p
  · rcases hst : st.props.sampling_start with _ | s0
    · simp [update_source_sample_period, hp, hst]
    · simp only [update_source_sample_period, hp, hst]
      split <;> rfl
  · rw [ussp_of_period_some c st now p hp]

/-- The buffer-length update keeps a suffix of the buffer. -/
lemma ubl_fst_buffer (c : ResamplerConfig) (st : HelperState) :
    ∃ k, (update_buffer_len c st).1.buffer = st.buffer.drop k := by
  rcases hp : st.props.sampling_period with _ | p
  · exact ⟨0, by simp [update_buffer_len, hp]⟩
  · set R : ℤ := ⌈if c.resampling_period < p
        then p * c.max_data_age_in_periods
        else c.resampling_period / p * c.max_data_age_in_periods⌉ with hR
    set m : ℤ := if (c.max_buffer_len : ℤ) < max 1 R then (c.max_buffer_len : ℤ)
        else max 1 R with hm
    by_cases hEq : m = (st.maxlen : ℤ)
    · refine ⟨0, ?_⟩
      have hres : update_buffer_len c st = (st, false) := by
        simp only [update_buffer_len, hp, ← hR, ← hm, if_pos hEq]
      rw [hres]
      simp
    · refine ⟨st.buffer.length - m.toNat, ?_⟩
      have hres : update_buffer_len c st =
          ({ st with
              maxlen := m.toNat
              buffer := st.buffer.drop (st.buffer.length - m.toNat) }, true) := by
        simp only [update_buffer_len, hp, ← hR, ← hm, if_neg hEq]
      rw [hres]

/-- Claim C1: a `resample(window_end)` call emits a sample stamped at
`window_end` whose relevant inputs are exactly the buffered samples with
timestamp in `(min_ts, window_end]` for
`min_ts = window_end - period * max_data_age_in_periods` and
`period = max(resampling_period, sampling_period)` when the sampling
period is known (else `resampling_period`); when that set is empty the
value is `None`, otherwise it is the reduction function applied to it. -/
theorem claim_C1_resample_window (c : ResamplerConfig) (rfn : ResamplingFunction)
    (st : HelperState) (window_end : ℚ) (hs : SortedTS st.buffer) :
    ∀ st' out, resample c rfn st window_end = (st', out) →
      out.timestamp = window_end
      ∧ ∀ rel, rel = st'.buffer.filter (fun s =>
            decide (window_end -
                relevance_period c st'.props * c.max_data_age_in_periods < s.timestamp)
            && decide (s.timestamp ≤ window_end)) →
          (rel = [] → out.value = none)
          ∧ (rel ≠ [] → out.value = some (Val.num (rfn rel c st'.props))) := by
  intro st' out heq
  have hst' : st' = (resample c rfn st window_end).1 := by rw [heq]
  have hout : out = (resample c rfn st window_end).2 := by rw [heq]
  subst hst'
  subst hout
  have hsorted : SortedTS (resample c rfn st window_end).1.buffer := by
    have hA : (resample c rfn st window_end).1 =
        (if (update_source_sample_period c st window_end).2
          then (update_buffer_len c (update_source_sample_period c st window_end).1).1
          else (update_source_sample_period c st window_end).1) := rfl
    rw [hA]
    split
    · obtain ⟨k, hk⟩ := ubl_fst_buffer c (update_source_sample_period c st window_end).1
      rw [hk, ussp_fst_buffer]
      exact hs.sublist (List.drop_sublist k st.buffer)
    · rw [ussp_fst_buffer]
      exact hs
  have hrelf := relevant_samples_eq_filter c (resample c rfn st window_end).1.buffer
    (resample c rfn st window_end).1.props window_end hsorted
  refine ⟨rfl, ?_⟩
  intro rel hrel
  have hrel2 : rel = relevant_samples c (resample c rfn st window_end).1.buffer
      (resample c rfn st window_end).1.props window_end := by
    rw [hrel, hrelf]
  have hval : (resample c rfn st window_end).2.value =
      (if rel.isEmpty
        then none
        else some (rfn rel c (resample c rfn st window_end).1.props)).map Val.num := by
    rw [hrel2]
    rfl
  constructor
  · intro hnil
    rw [hval, hnil]
    rfl
  · intro hne
    rw [hval]
    have hemp : rel.isEmpty = false := by
      rcases rel with _ | _
      · exact absurd rfl hne
      · rfl
    rw [hemp]
    rfl

/-- Witness for claim C1 at seed scenario 1: resampling the buffer with
samples (1 s, 4) and (2 s, 8) at window end 2 s under the mean reduction
yields the sample (2 s, 6). -/
theorem claim_C1_witness :
    (resample cfgW avgFn stW 2).2.timestamp = 2
    ∧ (resample cfgW avgFn stW 2).2.value = some (Val.num 6) := by
  have hsort : SortedTS stW.buffer := by
    simp [SortedTS, stW, mkNum, List.pairwise_cons]
  have hupd : update_source_sample_period cfgW stW 2 = (stW, false) := by
    simp only [update_source_sample_period, stW, cfgW]
    norm_num
  have hst1 : (resample cfgW avgFn stW 2).1 = stW := by
    show (if (update_source_sample_period cfgW stW 2).2
        then (update_buffer_len cfgW (update_source_sample_period cfgW stW 2).1).1
        else (update_source_sample_period cfgW stW 2).1) = stW
    rw [hupd]
    simp
  have h := claim_C1_resample_window cfgW avgFn stW 2 hsort
    (resample cfgW avgFn stW 2).1 (resample cfgW avgFn stW 2).2 rfl
  have hrel : [mkNum 1 4, mkNum 2 8] =
      (resample cfgW avgFn stW 2).1.buffer.filter (fun s =>
        decide (2 - relevance_period cfgW (resample cfgW avgFn stW 2).1.props *
            cfgW.max_data_age_in_periods < s.timestamp)
        && decide (s.timestamp ≤ 2)) := by
    rw [hst1]
    norm_num [stW, mkNum, relevance_period, cfgW, List.filter]
  have h2 := (h.2 [mkNum 1 4, mkNum 2 8] hrel).2 (by simp)
  refine ⟨h.1, ?_⟩
  rw [h2, hst1]
  norm_num [avgFn, sampleNum, mkNum, stW, List.filterMap_cons, List.sum_cons]
